import Mathlib

/-!
# Verification of `tap_quickbase` stream engine (`tap_quickbase/streams/abstracts.py`)

Shallow embedding of the stream execution engine of the tap:

* the pagination engine (`BaseStream.get_records` together with its helpers
  `_create_page_signature`, `_check_duplicate_page`, `_process_records_with_dedup`,
  `_should_continue_pagination`);
* the singer bookmark store (`singer.get_bookmark` / `singer.write_bookmark`) and the
  max-wins wrapper `IncrementalStream.write_bookmark`;
* the replication strategies `IncrementalStream.sync` and `PseudoIncrementalStream.sync`
  (with `_get_bookmark` / `_write_bookmark`);
* the parent/child bookmark aggregation `ParentBaseStream.get_bookmark` /
  `ParentBaseStream.write_bookmark`;
* the child-sync error handling of `BaseStream.sync_child_streams` with the error
  taxonomy of `tap_quickbase/exceptions.py`.

Modelling conventions:

* A raw API record (a Python dict) is modelled by the fields the engine actually
  inspects: `record.get('id')`, `record.get('field', {}).get('id')`, and
  `record.get('updated')`; all remaining content is collapsed into an opaque `payload`.
* Timestamps (parsed `datetime` values, microsecond resolution) are modelled as `Int`;
  one second is the constant `oneSecond = 1000000`.  An ISO timestamp string and its
  parsed value are identified: `tap_quickbase` only ever stores strings it previously
  parsed successfully, and `singer_utils.strptime_to_utc` is injective on them.
* `hash(json.dumps(page, sort_keys=True))` is modelled as an injective function of the
  page (the page itself is kept as the "hash"); equal pages get equal hashes and, as the
  spec itself treats the signature as a collision-free heuristic, distinct pages get
  distinct hashes.
* The upstream API is an arbitrary function from (request index, skip offset) to a
  response; the engine issues requests sequentially, so this quantifies over every
  possible sequence of responses.
-/

set_option linter.unusedVariables false
set_option linter.unusedSectionVars false
set_option linter.unnecessarySeqFocus false
set_option maxRecDepth 4000

namespace TapQuickbase

/-- A raw record as the pagination engine sees it: the engine reads
`record.get('id')` (`topId`), `record.get('field', {}).get('id')` (`fieldId`) and — in
the pseudo-incremental strategy — `record.get('updated')` (`updated`, already
identified with its parsed timestamp, `none` when the field is missing, falsy, or
unparseable; both code paths skip the record).  Everything else in the dict is the
opaque `payload`. -/
structure PyRecord where
  topId : Option Int
  fieldId : Option Int
  updated : Option Int
  payload : Nat
deriving DecidableEq

/-- `record.get('id') or record.get('field', {}).get('id')` — Python `or` falls through
on a falsy left operand, so an `id` equal to `0` (falsy in Python) also falls through to
`field.id`. -/
def extractId (r : PyRecord) : Option Int :=
  match r.topId with
  | some v => if v = 0 then r.fieldId else some v
  | none => r.fieldId

/-- A page signature (`BaseStream._create_page_signature`): either the triple
`(first id, last id, page length)` or the fallback hash of the serialized page
(modelled injectively by the page itself). -/
inductive PageSig where
  | ids : Int → Int → Nat → PageSig
  | jhash : List PyRecord → PageSig
deriving DecidableEq

/-- Signature of a non-empty page `r :: rs` (`raw_records[0]` / `raw_records[-1]`). -/
def pageSig (r : PyRecord) (rs : List PyRecord) : PageSig :=
  match extractId r, extractId (rs.getLastD r) with
  | some f, some l => .ids f l (rs.length + 1)
  | _, _ => .jhash (r :: rs)

/-- `BaseStream._create_page_signature`: `None` for an empty page, otherwise the id
triple when both end records yield an id, else the serialization hash. -/
def createPageSignature : List PyRecord → Option PageSig
  | [] => none
  | r :: rs => some (pageSig r rs)

/-- `BaseStream._check_duplicate_page`: given the current non-empty page's signature,
the remembered previous signature and the duplicate counter, return
`(should_break, new_dup_count)`. -/
def checkDuplicatePage (sig : PageSig) (lastSig : Option PageSig) (dup : Nat) :
    Bool × Nat :=
  if some sig = lastSig then
    let d := dup + 1
    if 2 ≤ d then (true, d) else (false, d)
  else (false, 0)

/-- `BaseStream._process_records_with_dedup`: yield the records whose extracted id was
not already seen (identity-less records are always yielded), returning the yielded
records and the updated seen set (the fixed `tap_stream_id` component of the
`(tap_stream_id, record_id)` keys is dropped: one sync has a single stream id). -/
def processDedup : List PyRecord → List Int → List PyRecord × List Int
  | [], seen => ([], seen)
  | r :: rs, seen =>
    match extractId r with
    | some i =>
      if i ∈ seen then processDedup rs seen
      else
        let p := processDedup rs (i :: seen)
        (r :: p.1, p.2)
    | none =>
      let p := processDedup rs seen
      (r :: p.1, p.2)

/-- A parsed API response, reduced to what the engine inspects: the extracted record
list (`BaseStream._extract_records`) and the pagination metadata — `none` when the
response has no `"metadata"` key (e.g. it is a bare list), `some t` when
`response["metadata"].get("totalRecords", 0) = t`. -/
structure Response where
  records : List PyRecord
  metadata : Option Nat
deriving DecidableEq

/-- `BaseStream._should_continue_pagination`: `(should_continue, new_skip)`. -/
def shouldContinuePagination (numRecords pageSize : Nat) (metadata : Option Nat)
    (skip : Nat) : Bool × Nat :=
  if numRecords < pageSize then (false, skip)
  else
    match metadata with
    | some totalRecords =>
      let newSkip := skip + numRecords
      if totalRecords ≤ newSkip then (false, newSkip) else (true, newSkip)
    | none => (true, skip + numRecords)

/-- The upstream API: a response for every (request index, skip offset) pair.  The
engine issues requests one at a time, so an arbitrary `Api` covers every possible
sequence of upstream responses. -/
def Api : Type := Nat → Nat → Response

/-- The body of the `while` loop of `BaseStream.get_records`, fuel-based: `fuel` is how
many iterations remain before the 10,000-iteration ceiling, `iter` the number of
requests already issued, then the mutable loop state `skip`, `seen_ids`, `dup_pages`,
`last_sig`.  Returns the records yielded from this point on and the number of further
requests issued. -/
def getRecordsAux (api : Api) (pageSize : Nat) :
    Nat → Nat → Nat → List Int → Nat → Option PageSig → List PyRecord × Nat
  | 0, _, _, _, _, _ => ([], 0)
  | fuel + 1, iter, skip, seen, dup, lastSig =>
    let resp := api iter skip
    match resp.records with
    | [] => ([], 1)
    | r :: rs =>
      let sig := pageSig r rs
      let chk := checkDuplicatePage sig lastSig dup
      if chk.1 then ([], 1)
      else
        let pd := processDedup (r :: rs) seen
        if pd.1.isEmpty then (pd.1, 1)
        else
          let sc := shouldContinuePagination (r :: rs).length pageSize resp.metadata skip
          if sc.1 then
            let rest := getRecordsAux api pageSize fuel (iter + 1) sc.2 pd.2 chk.2 (some sig)
            (pd.1 ++ rest.1, rest.2 + 1)
          else (pd.1, 1)

/-- `BaseStream.get_records`: run the pagination loop from the initial state
(`skip = 0`, empty seen set, `dup_pages = 0`, `last_sig = None`) with the
10,000-iteration safety ceiling.  Returns (yielded records, requests issued). -/
def getRecords (api : Api) (pageSize : Nat) : List PyRecord × Nat :=
  getRecordsAux api pageSize 10000 0 0 [] 0 none

/-- The condition of the final `LOGGER.error` of `BaseStream.get_records`
(`iteration >= max_iterations` after the loop): the loop variable `iteration` equals
the number of requests issued. -/
def hitIterationCeiling (api : Api) (pageSize : Nat) : Bool :=
  10000 ≤ (getRecords api pageSize).2

/-! ## The singer bookmark store

`state` is the nested dict `{"bookmarks": {stream: {key: value}}}`; we model the
`"bookmarks"` mapping as nested association lists.  `V` is the type of bookmark
values, ordered by the comparison Python's `max` / `<=` uses on them (lexicographic
for ISO-8601 strings, numeric for numbers). -/

variable {V : Type} [LinearOrder V]

/-- Set a key in an association list, replacing an existing binding in place. -/
def setAssoc {β : Type} : List (String × β) → String → β → List (String × β)
  | [], k, v => [(k, v)]
  | (k', v') :: rest, k, v =>
    if k' = k then (k, v) :: rest else (k', v') :: setAssoc rest k v

/-- The `"bookmarks"` portion of a singer state file: stream id → key → value. -/
structure SingerState (V : Type) where
  bookmarks : List (String × List (String × V))
deriving DecidableEq

/-- The raw stored entry for a (stream, key) pair, `none` when absent. -/
def getRaw (st : SingerState V) (stream key : String) : Option V :=
  (st.bookmarks.lookup stream).bind fun m => m.lookup key

/-- `singer.get_bookmark(state, stream, key, default)`. -/
def singerGetBookmark (st : SingerState V) (stream key : String) (default : V) : V :=
  (getRaw st stream key).getD default

/-- `singer.write_bookmark(state, stream, key, value)`: ensure the nested path exists
and store the value. -/
def singerWriteBookmark (st : SingerState V) (stream key : String) (value : V) :
    SingerState V :=
  let m := (st.bookmarks.lookup stream).getD []
  ⟨setAssoc st.bookmarks stream (setAssoc m key value)⟩

/-- `IncrementalStream.get_bookmark(state, stream, key)`: `singer.get_bookmark` with
the configured `start_date` as default and `key or self.replication_keys[0]` as key
(`key = none` models not passing the argument). -/
def incGetBookmark (startDate : V) (replicationKeys : List String)
    (st : SingerState V) (stream : String) (key : Option String) : V :=
  singerGetBookmark st stream (key.getD (replicationKeys.headD "")) startDate

/-- `IncrementalStream.write_bookmark(state, stream, key, value)`: no-op when neither
a key nor a replication key exists, otherwise store
`max(get_bookmark(state, stream, key, start_date), value)` — the max-wins update. -/
def incWriteBookmark (startDate : V) (replicationKeys : List String)
    (st : SingerState V) (stream : String) (key : Option String) (value : V) :
    SingerState V :=
  if key = none ∧ replicationKeys = [] then st
  else
    let k := key.getD (replicationKeys.headD "")
    let current := singerGetBookmark st stream k startDate
    singerWriteBookmark st stream k (max current value)

/-! ## `IncrementalStream.sync`

The sync iterates the pagination output; per record it takes the transformed record's
replication-key value (`transformed_record[self.replication_keys[0]]`), compares it to
the bookmark read at the start, and — when the stream is selected — emits the record.
The transform is an external pure function, so we model its output directly: a record
is its cursor value plus opaque payload. -/

/-- A transformed record as `IncrementalStream.sync` consumes it: the replication-key
value plus opaque remaining content. -/
structure TRecord (V : Type) where
  cursor : V
  payload : Nat
deriving DecidableEq

/-- Result of a replication sync: the records written by `singer.write_record` (in
order), the resulting state, and the record counter. -/
structure SyncResult (V : Type) where
  emitted : List (TRecord V)
  state : SingerState V
  counter : Nat
deriving DecidableEq

/-- `IncrementalStream.sync(state, transformer)`: read the bookmark, emit (when
selected) every paginated record whose cursor is `>=` the bookmark while tracking the
maximum cursor seen, then `write_bookmark` the maximum.  `recs` is the transformed
output of `get_records`. -/
def incSync (startDate : V) (selected : Bool) (stream rk : String)
    (st : SingerState V) (recs : List (TRecord V)) : SyncResult V :=
  let bookmarkDate := incGetBookmark startDate [rk] st stream none
  let step := fun (acc : List (TRecord V) × V × Nat) (r : TRecord V) =>
    if bookmarkDate ≤ r.cursor then
      (acc.1 ++ (if selected then [r] else []),
       max acc.2.1 r.cursor,
       acc.2.2 + (if selected then 1 else 0))
    else acc
  let res := recs.foldl step ([], bookmarkDate, 0)
  ⟨res.1, incWriteBookmark startDate [rk] st stream none res.2.1, res.2.2⟩

/-! ## `PseudoIncrementalStream`

Datetimes are `Int` (microseconds); the stream's bookmark entry in the state —
`state["bookmarks"][tap_stream_id]["updated"]` — is an `Option Int` (an ISO string
identified with its parsed value).  `timedelta(seconds=1)` is `oneSecond`. -/

/-- One second, at the microsecond resolution of Python `datetime`. -/
def oneSecond : Int := 1000000

/-- `PseudoIncrementalStream._get_bookmark`: the stored bookmark string if present,
else the configured `start_date`, parsed, minus one second.  (The stored bookmark and
`start_date` parse successfully: the tap only stores strings it parsed, and the config
default is `"1970-01-01T00:00:00Z"`.) -/
def pseudoGetBookmark (startDate : Int) (st : Option Int) : Option Int :=
  some (st.getD startDate - oneSecond)

/-- `PseudoIncrementalStream._write_bookmark(state, value)`: write the value and
immediately `write_state`, unless a current bookmark exists and the new value is not
strictly newer.  Returns the new bookmark entry and whether `write_state` was called. -/
def pseudoWriteBookmark (st : Option Int) (value : Int) : Option Int × Bool :=
  match st with
  | some current => if value ≤ current then (st, false) else (some value, true)
  | none => (some value, true)

/-- The record loop of `PseudoIncrementalStream.sync`: walk the paginated records with
the running `max_updated_str` / `max_updated_dt` pair (`max_updated_dt` starts at
`last_bookmark_dt`, `max_updated_str` at `None`), skipping records whose `updated`
field is missing or unparseable and records not strictly newer than the threshold.
Returns (records written when selected, final `max_updated_str`). -/
def pseudoSyncLoop (selected : Bool) (lastB : Option Int) :
    List PyRecord → Option Int → Option Int → List PyRecord × Option Int
  | [], maxStr, _ => ([], maxStr)
  | r :: rs, maxStr, maxDt =>
    match r.updated with
    | none => pseudoSyncLoop selected lastB rs maxStr maxDt
    | some dt =>
      if (match lastB with | some b => decide (dt ≤ b) | none => false) then
        pseudoSyncLoop selected lastB rs maxStr maxDt
      else
        let upd :=
          match maxDt with
          | none => (some dt, some dt)
          | some m => if m < dt then (some dt, some dt) else (maxStr, maxDt)
        let rest := pseudoSyncLoop selected lastB rs upd.1 upd.2
        ((if selected then r :: rest.1 else rest.1), rest.2)

/-- Result of a pseudo-incremental sync: emitted records, the stream's bookmark entry
in the resulting state, and whether `write_state` was called. -/
structure PseudoResult where
  emitted : List PyRecord
  state : Option Int
  persisted : Bool
deriving DecidableEq

/-- `PseudoIncrementalStream.sync`: fetch everything (`recs` is the `get_records`
output), filter tap-side against the threshold from `_get_bookmark`, and — if any
record survived — `_write_bookmark` the maximum `updated` value seen. -/
def pseudoSync (selected : Bool) (startDate : Int) (st : Option Int)
    (recs : List PyRecord) : PseudoResult :=
  let lastBookmarkDt := pseudoGetBookmark startDate st
  let lp := pseudoSyncLoop selected lastBookmarkDt recs none lastBookmarkDt
  match lp.2 with
  | some v =>
    let wb := pseudoWriteBookmark st v
    ⟨lp.1, wb.1, wb.2⟩
  | none => ⟨lp.1, st, false⟩

/-! ## `ParentBaseStream` bookmark aggregation -/

/-- The derived child bookmark key `f"{self.tap_stream_id}_{self.replication_keys[0]}"`. -/
def derivedKey (parentId rk : String) : String :=
  parentId ++ "_" ++ rk

/-- `ParentBaseStream.get_bookmark(state, stream)`: start from the parent's own
bookmark when the parent is selected (else `None`), then fold each attached child's
bookmark — read from the child's stream under the derived key — with `min`.
(The `if min_parent_bookmark` truthiness test is a `None` test: singer bookmark
values here are non-empty ISO-8601 strings, which are truthy.) -/
def parentGetBookmark (startDate : V) (selected : Bool) (parentId rk : String)
    (children : List String) (st : SingerState V) : Option V :=
  let init : Option V :=
    if selected then some (incGetBookmark startDate [rk] st parentId none) else none
  children.foldl
    (fun acc child =>
      let childBookmark :=
        incGetBookmark startDate [rk] st child (some (derivedKey parentId rk))
      some (acc.elim childBookmark (fun a => min a childBookmark)))
    init

/-- `ParentBaseStream.write_bookmark(state, stream, value)`: when selected, max-wins
write the value under the parent's own key; then max-wins write the same value under
every attached child's derived key.  (The Python mutates `state` in place; the
sequential mutation is threaded functionally.) -/
def parentWriteBookmark (startDate : V) (selected : Bool) (parentId rk : String)
    (children : List String) (st : SingerState V) (value : V) : SingerState V :=
  let st1 :=
    if selected then incWriteBookmark startDate [rk] st parentId none value else st
  children.foldl
    (fun s child =>
      incWriteBookmark startDate [rk] s child (some (derivedKey parentId rk)) value)
    st1

/-! ## `BaseStream.sync_child_streams` error handling -/

/-- The error classes of `tap_quickbase/exceptions.py` that `Client` raises for
non-2xx responses (`ERROR_CODE_EXCEPTION_MAPPING`). -/
inductive QBError where
  | badRequest | unauthorized | forbidden | notFound | conflict
  | unprocessableEntity | rateLimit | internalServerError
  | notImplementedError | badGateway | serviceUnavailable
deriving DecidableEq

/-- `BaseStream.sync_child_streams`: run each attached child's sync in order; a child
raising `QuickbaseForbiddenError` is logged and skipped (`continue`), any other
exception propagates immediately.  A child's behaviour is its outcome (`Except`);
the result collects the record counts of the children that ran to completion. -/
def syncChildStreams : List (Except QBError Nat) → Except QBError (List Nat)
  | [] => .ok []
  | .ok n :: rest => (syncChildStreams rest).map (n :: ·)
  | .error e :: rest =>
    if e = .forbidden then syncChildStreams rest else .error e

/-! ## Specification-side helpers and concrete inputs

Helpers used only to *state* the verified properties, plus the concrete API
behaviours of the spec's scenarios. -/

/-- The pseudo-incremental tap-side filter predicate as the spec states it: a record
passes iff its `updated` timestamp parses and is strictly greater than the threshold. -/
def passesFilter (threshold : Int) (r : PyRecord) : Bool :=
  match r.updated with
  | some dt => decide (threshold < dt)
  | none => false

/-- Minimum of a list of bookmark values (`none` for the empty list). -/
def listMin {V : Type} [LinearOrder V] : List V → Option V
  | [] => none
  | v :: vs => some ((listMin vs).elim v (min v))

/-- Maximum of a list of timestamps (`none` for the empty list). -/
def listMaxD : List Int → Option Int
  | [] => none
  | t :: ts => some (ts.foldl max t)

/-- The record counts of the child syncs that completed without raising. -/
def successes (outs : List (Except QBError Nat)) : List Nat :=
  outs.filterMap fun o =>
    match o with
    | .ok n => some n
    | .error _ => none

/-- A record carrying a top-level `id` and nothing else the engine inspects. -/
def mkRec (i : Int) : PyRecord := ⟨some i, none, none, 0⟩

/-- The C5 scenario API: pages of 50, 50 and 30 records with ascending distinct ids
`0..129`, no envelope metadata, then no more data. -/
def api3 : Api := fun iter _ =>
  if iter = 0 then ⟨(List.range 50).map (fun n => mkRec n), none⟩
  else if iter = 1 then ⟨(List.range 50).map (fun n => mkRec (n + 50)), none⟩
  else if iter = 2 then ⟨(List.range 30).map (fun n => mkRec (n + 100)), none⟩
  else ⟨[], none⟩

/-- A 50-record page with distinct ids `1..50`. -/
def page50 : List PyRecord := (List.range 50).map (fun n => mkRec (n + 1))

/-- The C3 scenario API: the identical 50-record page on the first two requests. -/
def api2 : Api := fun iter _ =>
  if iter ≤ 1 then ⟨page50, none⟩ else ⟨[], none⟩

/-- A record with no id anywhere (dedup and the id-triple signature cannot see it),
distinguished only by its payload. -/
def nrec (p : Nat) : PyRecord := ⟨none, none, none, p⟩

/-- An API returning the same identity-less full page on the first two requests, a
different full page on the third and nothing afterwards (page size 2). -/
def apiNoIds : Api := fun iter _ =>
  if iter ≤ 1 then ⟨[nrec 0, nrec 1], none⟩
  else if iter = 2 then ⟨[nrec 2, nrec 3], none⟩
  else ⟨[], none⟩

/-- An API producing an endless stream of fresh single-record pages (ids `1, 2, …`),
which never triggers any termination condition except the iteration ceiling. -/
def apiFresh : Api := fun iter _ => ⟨[mkRec ((iter : Int) + 1)], none⟩

/-! ## Bookmark store lemmas -/

theorem lookup_setAssoc_self {β : Type} (l : List (String × β)) (k : String) (v : β) :
    (setAssoc l k v).lookup k = some v := by
  induction l with
  | nil => simp [setAssoc, List.lookup]
  | cons hd tl ih =>
    obtain ⟨k', v'⟩ := hd
    by_cases h : k' = k
    · subst h; simp [setAssoc, List.lookup]
    · have hb : (k == k') = false := beq_eq_false_iff_ne.mpr (Ne.symm h)
      simp [setAssoc, if_neg h, List.lookup, hb, ih]

theorem lookup_setAssoc_ne {β : Type} (l : List (String × β)) (k k' : String) (v : β)
    (h : k' ≠ k) : (setAssoc l k v).lookup k' = l.lookup k' := by
  have hb : (k' == k) = false := beq_eq_false_iff_ne.mpr h
  induction l with
  | nil => simp [setAssoc, List.lookup, hb]
  | cons hd tl ih =>
    obtain ⟨k₀, v₀⟩ := hd
    by_cases h₀ : k₀ = k
    · subst h₀
      simp [setAssoc, List.lookup, hb]
    · simp [setAssoc, if_neg h₀, List.lookup, ih]

variable {V : Type} [LinearOrder V]

theorem getRaw_singerWrite_self (st : SingerState V) (s k : String) (v : V) :
    getRaw (singerWriteBookmark st s k v) s k = some v := by
  simp [getRaw, singerWriteBookmark, lookup_setAssoc_self]

theorem getRaw_singerWrite_frame (st : SingerState V) (sw kw s k : String) (v : V)
    (h : s ≠ sw ∨ k ≠ kw) :
    getRaw (singerWriteBookmark st sw kw v) s k = getRaw st s k := by
  by_cases hs : s = sw
  · subst hs
    have hk : k ≠ kw := h.resolve_left (by simp)
    simp only [getRaw, singerWriteBookmark, lookup_setAssoc_self, Option.some_bind]
    rw [lookup_setAssoc_ne _ _ _ _ hk]
    cases hkk : st.bookmarks.lookup s <;> simp [hkk, List.lookup]
  · simp [getRaw, singerWriteBookmark, lookup_setAssoc_ne _ _ _ _ hs]

/-- The effective key of the `key or self.replication_keys[0]` idiom. -/
theorem incWrite_eq_of_key (sd : V) (rks : List String) (st : SingerState V)
    (s k : String) (v : V) :
    incWriteBookmark sd rks st s (some k) v =
      singerWriteBookmark st s k (max (singerGetBookmark st s k sd) v) := by
  simp [incWriteBookmark]

theorem getRaw_incWrite_self (sd : V) (rks : List String) (st : SingerState V)
    (s k : String) (v : V) :
    getRaw (incWriteBookmark sd rks st s (some k) v) s k =
      some (max (singerGetBookmark st s k sd) v) := by
  rw [incWrite_eq_of_key, getRaw_singerWrite_self]

theorem getRaw_incWrite_frame (sd : V) (rks : List String) (st : SingerState V)
    (sw kw s k : String) (v : V) (h : s ≠ sw ∨ k ≠ kw) :
    getRaw (incWriteBookmark sd rks st sw (some kw) v) s k = getRaw st s k := by
  rw [incWrite_eq_of_key, getRaw_singerWrite_frame _ _ _ _ _ _ h]

/-- **C2** — For every sequence of calls to `IncrementalStream.write_bookmark(state,
id, field, v)`, the value stored for `(id, field)` after any call equals
`max(previously stored value, v)` under the value's comparison; a sequence of writes
accumulates `foldl max` of the written values over the initial stored value, and in
particular sequential writes never decrease the stored value. -/
theorem C2_monotonic_bookmark (sd : V) (rks : List String) (st : SingerState V)
    (s k : String) (v p : V) (h : getRaw st s k = some p) :
    getRaw (incWriteBookmark sd rks st s (some k) v) s k = some (max p v) ∧
    (∀ ws : List V,
      getRaw (ws.foldl (fun acc w => incWriteBookmark sd rks acc s (some k) w) st) s k =
        some (ws.foldl max p)) ∧
    (∀ (ws : List V) (w : V),
      (getRaw (ws.foldl (fun acc w => incWriteBookmark sd rks acc s (some k) w) st)
          s k).getD p ≤
      (getRaw ((ws ++ [w]).foldl (fun acc w => incWriteBookmark sd rks acc s (some k) w) st)
          s k).getD p) := by
  have single : ∀ (st' : SingerState V) (p' v' : V), getRaw st' s k = some p' →
      getRaw (incWriteBookmark sd rks st' s (some k) v') s k = some (max p' v') := by
    intro st' p' v' h'
    rw [getRaw_incWrite_self]
    simp [singerGetBookmark, h']
  have fold : ∀ (ws : List V) (st' : SingerState V) (p' : V), getRaw st' s k = some p' →
      getRaw (ws.foldl (fun acc w => incWriteBookmark sd rks acc s (some k) w) st') s k =
        some (ws.foldl max p') := by
    intro ws
    induction ws with
    | nil => intro st' p' h'; simpa using h'
    | cons w ws ih =>
      intro st' p' h'
      simpa using ih _ (max p' w) (single st' p' w h')
  refine ⟨single st p v h, fun ws => fold ws st p h, ?_⟩
  intro ws w
  rw [fold ws st p h, fold (ws ++ [w]) st p h]
  simp [List.foldl_append, le_max_left]

/-- Witness for C2 at a concrete state holding `7` for `("s", "u")`: writing `3` keeps
`7`, writing a sequence `[3, 9, 4]` leaves `max` of everything, `9`. -/
theorem C2_monotonic_bookmark_witness :
    getRaw (⟨[("s", [("u", (7 : Int))])]⟩ : SingerState Int) "s" "u" = some 7 ∧
    getRaw (incWriteBookmark 0 ["u"] ⟨[("s", [("u", (7 : Int))])]⟩ "s" (some "u") 3)
      "s" "u" = some (max 7 3) ∧
    getRaw ([3, 9, 4].foldl
      (fun acc w => incWriteBookmark 0 ["u"] acc "s" (some "u") w)
      (⟨[("s", [("u", (7 : Int))])]⟩ : SingerState Int)) "s" "u" =
        some ([(3 : Int), 9, 4].foldl max 7) := by
  have h : getRaw (⟨[("s", [("u", (7 : Int))])]⟩ : SingerState Int) "s" "u" = some 7 := by
    decide
  have hc := C2_monotonic_bookmark (0 : Int) ["u"] ⟨[("s", [("u", 7)])]⟩ "s" "u" 3 7 h
  exact ⟨h, hc.1, hc.2.1 [3, 9, 4]⟩

/-! ## Parent/child bookmark propagation (C7) -/

theorem foldl_min_assoc (xs : List V) (a b : V) :
    xs.foldl min (min a b) = min a (xs.foldl min b) := by
  induction xs generalizing b with
  | nil => rfl
  | cons c xs ih =>
    simp only [List.foldl_cons]
    rw [min_assoc, ih]

theorem listMin_cons_foldl (x : V) (xs : List V) :
    listMin (x :: xs) = some (xs.foldl min x) := by
  induction xs generalizing x with
  | nil => rfl
  | cons y ys ih =>
    show some ((listMin (y :: ys)).elim x (min x)) = _
    rw [ih y]
    simp only [Option.elim_some, List.foldl_cons]
    rw [foldl_min_assoc]

theorem foldl_optMin (g : String → V) (cs : List String) :
    ∀ acc : Option V,
      cs.foldl (fun acc c => some (acc.elim (g c) (fun a => min a (g c)))) acc =
      acc.elim (listMin (cs.map g)) (fun a => some ((cs.map g).foldl min a)) := by
  induction cs with
  | nil => intro acc; cases acc <;> rfl
  | cons c cs ih =>
    intro acc
    cases acc with
    | some a =>
      simp only [List.foldl_cons, List.map_cons, Option.elim_some]
      rw [ih (some (min a (g c)))]
      rfl
    | none =>
      simp only [List.foldl_cons, List.map_cons, Option.elim_none]
      rw [ih (some (g c)), listMin_cons_foldl]
      rfl

/-- The derived child key is never the bare replication key (it is strictly longer). -/
theorem derivedKey_ne_rk (pid rk : String) : derivedKey pid rk ≠ rk := by
  intro h
  have h2 := congrArg String.length h
  rw [derivedKey, String.length_append, String.length_append] at h2
  have h3 : ("_" : String).length = 1 := rfl
  omega

/-- Writing the parent bookmark with key `none` resolves to the replication key. -/
theorem incWrite_none_eq (sd : V) (rk : String) (st : SingerState V) (s : String)
    (v : V) :
    incWriteBookmark sd [rk] st s none v = incWriteBookmark sd [rk] st s (some rk) v := by
  simp [incWriteBookmark]

/-- Effect of the child-write fold of `ParentBaseStream.write_bookmark` on every
(stream, key) entry. -/
theorem parentWriteFold (sd v : V) (pid rk : String) (cs : List String) :
    ∀ s0 : SingerState V,
      (∀ c, getRaw (cs.foldl
          (fun s c => incWriteBookmark sd [rk] s c (some (derivedKey pid rk)) v) s0)
          c (derivedKey pid rk) =
        if c ∈ cs then some (max (singerGetBookmark s0 c (derivedKey pid rk) sd) v)
        else getRaw s0 c (derivedKey pid rk)) ∧
      (∀ s k, k ≠ derivedKey pid rk →
        getRaw (cs.foldl
          (fun s c => incWriteBookmark sd [rk] s c (some (derivedKey pid rk)) v) s0)
          s k = getRaw s0 s k) := by
  induction cs with
  | nil => intro s0; simp
  | cons c0 cs ih =>
    intro s0
    set dk := derivedKey pid rk with hdk
    constructor
    · intro c
      rw [List.foldl_cons, (ih _).1 c]
      by_cases hc : c ∈ cs
      · simp only [hc, if_true, List.mem_cons, or_true, if_pos (Or.inr hc)]
        by_cases hcc : c = c0
        · subst hcc
          rw [show singerGetBookmark (incWriteBookmark sd [rk] s0 c (some dk) v) c dk sd
                = max (singerGetBookmark s0 c dk sd) v by
              simp [singerGetBookmark, getRaw_incWrite_self]]
          rw [max_assoc, max_self]
        · rw [show singerGetBookmark (incWriteBookmark sd [rk] s0 c0 (some dk) v) c dk sd
                = singerGetBookmark s0 c dk sd by
              simp [singerGetBookmark, getRaw_incWrite_frame _ _ _ _ _ _ _ _ (Or.inl hcc)]]
      · simp only [hc, if_false]
        by_cases hcc : c = c0
        · subst hcc
          simp only [List.mem_cons, true_or, if_true]
          rw [getRaw_incWrite_self]
        · simp only [List.mem_cons, hcc, hc, or_self, if_false]
          rw [getRaw_incWrite_frame _ _ _ _ _ _ _ _ (Or.inl hcc)]
    · intro s k hk
      rw [List.foldl_cons, (ih _).2 s k hk,
        getRaw_incWrite_frame _ _ _ _ _ _ _ _ (Or.inr hk)]

/-- **C7 (counterexample)** — For an *unselected* parent, `ParentBaseStream.write_bookmark`
does not write the parent's own key at all: writing value `5` into an empty state leaves
the parent's `("p", "u")` entry absent while the child's derived entry gets `5`.  This
falsifies "writing a parent bookmark value writes that same value through to *both* the
parent's own key and every attached child's derived key". -/
theorem C7_parent_bookmark_counterexample :
    getRaw (parentWriteBookmark (V := Int) 0 false "p" "u" ["c"] ⟨[]⟩ 5) "p" "u" = none ∧
    getRaw (parentWriteBookmark (V := Int) 0 false "p" "u" ["c"] ⟨[]⟩ 5) "c"
      (derivedKey "p" "u") = some 5 := by
  constructor <;> decide

/-- **C7 (amended)** — Reading a parent's bookmark returns the minimum over (the
parent's own bookmark — stored value or start-date default — included only if the
parent is selected) and each attached child's bookmark under the derived key
`"{parent_id}_{parent_cursor_field}"`.  Writing a parent bookmark value performs the
max-wins write with that same value on the parent's own key *only when the parent is
selected*, and on every attached child's derived key. -/
theorem C7_parent_bookmark_propagation (sd : V) (sel : Bool) (pid rk : String)
    (cs : List String) (st : SingerState V) (v : V) :
    parentGetBookmark sd sel pid rk cs st =
      listMin ((if sel then [incGetBookmark sd [rk] st pid none] else []) ++
        cs.map (fun c => incGetBookmark sd [rk] st c (some (derivedKey pid rk)))) ∧
    (sel = true →
      getRaw (parentWriteBookmark sd sel pid rk cs st v) pid rk =
        some (max (singerGetBookmark st pid rk sd) v)) ∧
    (sel = false →
      getRaw (parentWriteBookmark sd sel pid rk cs st v) pid rk = getRaw st pid rk) ∧
    (∀ c ∈ cs,
      getRaw (parentWriteBookmark sd sel pid rk cs st v) c (derivedKey pid rk) =
        some (max (singerGetBookmark st c (derivedKey pid rk) sd) v)) := by
  refine ⟨?_, ?_, ?_, ?_⟩
  · simp only [parentGetBookmark]
    rw [foldl_optMin (fun c => incGetBookmark sd [rk] st c (some (derivedKey pid rk))) cs]
    cases sel with
    | true =>
      simp [listMin_cons_foldl]
    | false =>
      simp
  · intro hsel
    subst hsel
    show getRaw (cs.foldl _ (incWriteBookmark sd [rk] st pid none v)) pid rk = _
    rw [(parentWriteFold sd v pid rk cs _).2 pid rk (Ne.symm (derivedKey_ne_rk pid rk))]
    rw [incWrite_none_eq, getRaw_incWrite_self]
  · intro hsel
    subst hsel
    show getRaw (cs.foldl _ st) pid rk = _
    exact (parentWriteFold sd v pid rk cs _).2 pid rk (Ne.symm (derivedKey_ne_rk pid rk))
  · intro c hc
    cases sel with
    | true =>
      show getRaw (cs.foldl _ (incWriteBookmark sd [rk] st pid none v)) c _ = _
      rw [(parentWriteFold sd v pid rk cs _).1 c, if_pos hc]
      rw [show singerGetBookmark (incWriteBookmark sd [rk] st pid none v) c
            (derivedKey pid rk) sd = singerGetBookmark st c (derivedKey pid rk) sd by
          rw [incWrite_none_eq]
          by_cases hcp : c = pid
          · rw [hcp]
            simp [singerGetBookmark,
              getRaw_incWrite_frame _ _ _ _ _ _ _ _ (Or.inr (derivedKey_ne_rk pid rk))]
          · simp [singerGetBookmark,
              getRaw_incWrite_frame _ _ _ _ _ _ _ _ (Or.inl hcp)]]
    | false =>
      show getRaw (cs.foldl _ st) c _ = _
      rw [(parentWriteFold sd v pid rk cs _).1 c, if_pos hc]

/-- Witness for C7 at a concrete selected parent with two children: read returns the
minimum of the three bookmarks, and writing `10` max-writes `10` everywhere. -/
theorem C7_parent_bookmark_propagation_witness :
    parentGetBookmark (V := Int) 0 true "p" "u" ["c", "d"]
        ⟨[("p", [("u", 7)]), ("c", [("p_u", 3)]), ("d", [("p_u", 9)])]⟩ = some 3 ∧
    getRaw (parentWriteBookmark (V := Int) 0 true "p" "u" ["c", "d"]
        ⟨[("p", [("u", 7)]), ("c", [("p_u", 3)]), ("d", [("p_u", 9)])]⟩ 10) "p" "u" =
      some 10 ∧
    getRaw (parentWriteBookmark (V := Int) 0 true "p" "u" ["c", "d"]
        ⟨[("p", [("u", 7)]), ("c", [("p_u", 3)]), ("d", [("p_u", 9)])]⟩ 10) "c"
      (derivedKey "p" "u") = some 10 := by
  have hc := C7_parent_bookmark_propagation (V := Int) 0 true "p" "u" ["c", "d"]
    ⟨[("p", [("u", 7)]), ("c", [("p_u", 3)]), ("d", [("p_u", 9)])]⟩ 10
  refine ⟨?_, ?_, ?_⟩
  · rw [hc.1]; decide
  · rw [hc.2.1 rfl]; decide
  · rw [hc.2.2.2 "c" (by decide)]; decide

/-! ## Child-sync error handling (C9) -/

/-- **C9** — A child sync raising the forbidden (403) error is caught in
`BaseStream.sync_child_streams`, logged and skipped, while the remaining sibling
children for that parent record still run and the parent's sync continues (the loop
returns normally with the outcomes of the children that completed); any error of
another kind propagates out at the point it occurs. -/
theorem C9_forbidden_child_skipped :
    (∀ outs : List (Except QBError Nat),
      (∀ e, Except.error e ∈ outs → e = .forbidden) →
      syncChildStreams outs = .ok (successes outs)) ∧
    (∀ (pre : List (Except QBError Nat)) (e : QBError) (post : List (Except QBError Nat)),
      e ≠ .forbidden →
      (∀ e', Except.error e' ∈ pre → e' = .forbidden) →
      syncChildStreams (pre ++ .error e :: post) = .error e) := by
  constructor
  · intro outs
    induction outs with
    | nil => intro _; rfl
    | cons o rest ih =>
      intro h
      cases o with
      | ok n =>
        simp only [syncChildStreams, successes, List.filterMap_cons]
        rw [ih (fun e he => h e (List.mem_cons_of_mem _ he))]
        rfl
      | error e =>
        have he : e = .forbidden := h e (List.mem_cons_self _ _)
        subst he
        simp only [syncChildStreams, if_pos rfl, successes, List.filterMap_cons]
        exact ih (fun e he => h e (List.mem_cons_of_mem _ he))
  · intro pre e post hne
    induction pre with
    | nil =>
      intro _
      simp only [List.nil_append, syncChildStreams, if_neg hne]
    | cons o rest ih =>
      intro h
      cases o with
      | ok n =>
        simp only [List.cons_append, syncChildStreams, List.append_eq]
        rw [ih (fun e' he' => h e' (List.mem_cons_of_mem _ he'))]
        rfl
      | error e' =>
        have he' : e' = .forbidden := h e' (List.mem_cons_self _ _)
        subst he'
        simp only [List.cons_append, syncChildStreams, if_pos rfl, List.append_eq]
        exact ih (fun e' he' => h e' (List.mem_cons_of_mem _ he'))

/-- Witness for C9: with outcomes `[ok 1, forbidden, ok 2]` the loop finishes with the
two completed children; with `[error forbidden, error notFound, ok 2]` the non-forbidden
`notFound` error propagates. -/
theorem C9_forbidden_child_skipped_witness :
    syncChildStreams [.ok 1, .error .forbidden, .ok 2] = .ok [1, 2] ∧
    syncChildStreams [.error .forbidden, .error .notFound, .ok 2] = .error .notFound := by
  constructor
  · refine C9_forbidden_child_skipped.1 [.ok 1, .error .forbidden, .ok 2] ?_
    intro e he
    rcases List.mem_cons.mp he with h | he
    · exact Except.noConfusion h
    rcases List.mem_cons.mp he with h | he
    · exact Except.error.inj h
    rcases List.mem_cons.mp he with h | he
    · exact Except.noConfusion h
    · exact absurd he (List.not_mem_nil _)
  · refine C9_forbidden_child_skipped.2 [.error .forbidden] .notFound [.ok 2]
      (by decide) ?_
    intro e he
    rcases List.mem_cons.mp he with h | he
    · exact Except.error.inj h
    · exact absurd he (List.not_mem_nil _)

/-! ## Page identity signature (C10) -/

/-- **C10** — The page identity signature is `None` for an empty page; for a non-empty
page it is the triple `(first record's id, last record's id, page length)` whenever the
`id`-or-`field.id` extraction yields an id for both the first and the last record, and
otherwise the hash of the serialized page, which (being injective on pages) still
matches exactly the identical pages for records carrying no ids. -/
theorem C10_page_signature :
    createPageSignature ([] : List PyRecord) = none ∧
    (∀ (r : PyRecord) (rs : List PyRecord) (f l : Int),
      extractId r = some f → extractId (rs.getLastD r) = some l →
      createPageSignature (r :: rs) = some (.ids f l (rs.length + 1))) ∧
    (∀ (r : PyRecord) (rs : List PyRecord),
      extractId r = none ∨ extractId (rs.getLastD r) = none →
      createPageSignature (r :: rs) = some (.jhash (r :: rs))) ∧
    (∀ p q : List PyRecord,
      (∀ x ∈ p, extractId x = none) → (∀ x ∈ q, extractId x = none) →
      p ≠ [] → q ≠ [] →
      (createPageSignature p = createPageSignature q ↔ p = q)) := by
  refine ⟨rfl, ?_, ?_, ?_⟩
  · intro r rs f l hf hl
    show some (pageSig r rs) = _
    unfold pageSig
    rw [hf, hl]
  · intro r rs h
    show some (pageSig r rs) = _
    unfold pageSig
    rcases h with h | h
    · rw [h]
    · rw [h]
      cases hf : extractId r <;> rfl
  · intro p q hp hq hpne hqne
    match p, q with
    | r :: rs, r' :: rs' =>
      have h1 : createPageSignature (r :: rs) = some (.jhash (r :: rs)) := by
        show some (pageSig r rs) = _
        unfold pageSig
        rw [hp r (List.mem_cons_self _ _)]
      have h2 : createPageSignature (r' :: rs') = some (.jhash (r' :: rs')) := by
        show some (pageSig r' rs') = _
        unfold pageSig
        rw [hq r' (List.mem_cons_self _ _)]
      rw [h1, h2]
      simp

/-- Witness for C10: a page whose two records carry ids `3` and `9` gets the id-triple
signature; a page of id-less records gets the page-hash signature, equal between the
two identical pages. -/
theorem C10_page_signature_witness :
    createPageSignature [mkRec 3, mkRec 9] = some (.ids 3 9 2) ∧
    createPageSignature [nrec 0, nrec 1] = some (.jhash [nrec 0, nrec 1]) ∧
    (createPageSignature [nrec 0, nrec 1] = createPageSignature [nrec 0, nrec 1] ↔
      [nrec 0, nrec 1] = [nrec 0, nrec 1]) := by
  refine ⟨?_, ?_, ?_⟩
  · exact C10_page_signature.2.1 (mkRec 3) [mkRec 9] 3 9 (by decide) (by decide)
  · exact C10_page_signature.2.2.1 (nrec 0) [nrec 1] (Or.inl (by decide))
  · exact C10_page_signature.2.2.2 [nrec 0, nrec 1] [nrec 0, nrec 1]
      (by decide) (by decide) (by decide) (by decide)

/-! ## Pseudo-incremental filtering and bookmarking (C1, C8) -/

/-- The records the pseudo-incremental record loop writes are exactly the filter of its
input against the threshold — when the stream is selected; an unselected loop writes
nothing. -/
theorem pseudoLoop_emitted (sel : Bool) (b : Int) :
    ∀ (recs : List PyRecord) (ms md : Option Int),
      (pseudoSyncLoop sel (some b) recs ms md).1 =
        if sel then recs.filter (passesFilter b) else [] := by
  intro recs
  induction recs with
  | nil => intro ms md; cases sel <;> rfl
  | cons r rs ih =>
    intro ms md
    cases hu : r.updated with
    | none =>
      have hp : passesFilter b r = false := by simp [passesFilter, hu]
      simp [pseudoSyncLoop, hu, List.filter_cons, hp, ih]
    | some dt =>
      by_cases hdt : dt ≤ b
      · have h1 : decide (dt ≤ b) = true := by simpa using hdt
        have h2 : passesFilter b r = false := by
          simp only [passesFilter, hu, decide_eq_false_iff_not]
          exact not_lt.mpr hdt
        simp [pseudoSyncLoop, hu, h1, List.filter_cons, h2, ih]
      · have h1 : decide (dt ≤ b) = false := by simpa using hdt
        have h2 : passesFilter b r = true := by
          simp [passesFilter, hu]
          exact lt_of_not_le hdt
        simp only [pseudoSyncLoop, hu, h1, Bool.false_eq_true, if_false,
          List.filter_cons, h2, if_true]
        rw [ih]
        cases sel <;> simp

/-- From a synchronised `(max_updated_str, max_updated_dt) = (some m, some m)` state the
record loop returns the running `max` folded over the passing timestamps. -/
theorem pseudoLoop_max_some (sel : Bool) (b : Int) :
    ∀ (recs : List PyRecord) (m : Int),
      (pseudoSyncLoop sel (some b) recs (some m) (some m)).2 =
        some (((recs.filterMap PyRecord.updated).filter (fun t => decide (b < t))).foldl
          max m) := by
  intro recs
  induction recs with
  | nil => intro m; rfl
  | cons r rs ih =>
    intro m
    cases hu : r.updated with
    | none => simp [pseudoSyncLoop, hu, ih, List.filterMap_cons]
    | some dt =>
      by_cases hdt : dt ≤ b
      · have h1 : decide (dt ≤ b) = true := by simpa using hdt
        have h2 : decide (b < dt) = false := by simpa using not_lt.mpr hdt
        simp [pseudoSyncLoop, hu, h1, h2, List.filterMap_cons, List.filter_cons, ih]
      · have hlt : b < dt := lt_of_not_le hdt
        have h1 : decide (dt ≤ b) = false := by simpa using hdt
        have h2 : decide (b < dt) = true := by simpa using hlt
        rcases le_or_lt dt m with hmd | hmd
        · have h3 : ¬ m < dt := not_lt.mpr hmd
          simp [pseudoSyncLoop, hu, h1, h2, h3, List.filterMap_cons, List.filter_cons,
            ih, max_eq_left hmd]
        · simp [pseudoSyncLoop, hu, h1, h2, hmd, List.filterMap_cons, List.filter_cons,
            ih, max_eq_right (le_of_lt hmd)]

/-- From the initial `(None, last_bookmark_dt)` state the record loop's final
`max_updated_str` is the maximum passing timestamp, or `None` when nothing passed. -/
theorem pseudoLoop_max_none (sel : Bool) (b : Int) :
    ∀ recs : List PyRecord,
      (pseudoSyncLoop sel (some b) recs none (some b)).2 =
        listMaxD ((recs.filterMap PyRecord.updated).filter (fun t => decide (b < t))) := by
  intro recs
  induction recs with
  | nil => rfl
  | cons r rs ih =>
    cases hu : r.updated with
    | none => simp [pseudoSyncLoop, hu, ih, List.filterMap_cons]
    | some dt =>
      by_cases hdt : dt ≤ b
      · have h1 : decide (dt ≤ b) = true := by simpa using hdt
        have h2 : decide (b < dt) = false := by simpa using not_lt.mpr hdt
        simp [pseudoSyncLoop, hu, h1, h2, List.filterMap_cons, List.filter_cons, ih]
      · have hlt : b < dt := lt_of_not_le hdt
        have h1 : decide (dt ≤ b) = false := by simpa using hdt
        have h2 : decide (b < dt) = true := by simpa using hlt
        simp only [pseudoSyncLoop, hu, h1, Bool.false_eq_true, if_false,
          List.filterMap_cons, List.filter_cons, h2, if_true, hlt]
        rw [pseudoLoop_max_some sel b rs dt]
        rfl

/-- Projection of `pseudoSync` onto the emitted records. -/
theorem pseudoSync_emitted (sel : Bool) (sd : Int) (st : Option Int)
    (recs : List PyRecord) :
    (pseudoSync sel sd st recs).emitted =
      (pseudoSyncLoop sel (pseudoGetBookmark sd st) recs none
        (pseudoGetBookmark sd st)).1 := by
  simp only [pseudoSync]
  cases hm : (pseudoSyncLoop sel (pseudoGetBookmark sd st) recs none
      (pseudoGetBookmark sd st)).2 <;> rfl

/-- Projection of `pseudoSync` onto the resulting bookmark entry. -/
theorem pseudoSync_state (sel : Bool) (sd : Int) (st : Option Int)
    (recs : List PyRecord) :
    (pseudoSync sel sd st recs).state =
      (match (pseudoSyncLoop sel (pseudoGetBookmark sd st) recs none
          (pseudoGetBookmark sd st)).2 with
       | some v => (pseudoWriteBookmark st v).1
       | none => st) := by
  simp only [pseudoSync]
  cases hm : (pseudoSyncLoop sel (pseudoGetBookmark sd st) recs none
      (pseudoGetBookmark sd st)).2 <;> rfl

/-- Projection of `pseudoSync` onto the `write_state`-was-called flag. -/
theorem pseudoSync_persisted (sel : Bool) (sd : Int) (st : Option Int)
    (recs : List PyRecord) :
    (pseudoSync sel sd st recs).persisted =
      (match (pseudoSyncLoop sel (pseudoGetBookmark sd st) recs none
          (pseudoGetBookmark sd st)).2 with
       | some v => (pseudoWriteBookmark st v).2
       | none => false) := by
  simp only [pseudoSync]
  cases hm : (pseudoSyncLoop sel (pseudoGetBookmark sd st) recs none
      (pseudoGetBookmark sd st)).2 <;> rfl

/-- **C1** — With an existing bookmark `T`, the pseudo-incremental filter threshold is
`T` minus one second, and when the stream is selected a record is emitted exactly when
its parsed `updated` timestamp is strictly greater than that threshold: one timestamped
exactly `T` is emitted, one timestamped `T - 1s` (or earlier) is filtered and never
emitted, one timestamped just after `T` is emitted. -/
theorem C1_pseudo_incremental_overlap (sd T : Int) (recs : List PyRecord) :
    pseudoGetBookmark sd (some T) = some (T - oneSecond) ∧
    (pseudoSync true sd (some T) recs).emitted =
      recs.filter (passesFilter (T - oneSecond)) ∧
    (pseudoSync true sd (some T)
        [⟨some 1, none, some T, 0⟩, ⟨some 2, none, some (T - oneSecond), 0⟩,
         ⟨some 3, none, some (T + 1), 0⟩]).emitted =
      [⟨some 1, none, some T, 0⟩, ⟨some 3, none, some (T + 1), 0⟩] := by
  have hthr : pseudoGetBookmark sd (some T) = some (T - oneSecond) := rfl
  have hchar : ∀ rs : List PyRecord, (pseudoSync true sd (some T) rs).emitted =
      rs.filter (passesFilter (T - oneSecond)) := by
    intro rs
    rw [pseudoSync_emitted, hthr, pseudoLoop_emitted, if_pos rfl]
  have hA : passesFilter (T - oneSecond) ⟨some 1, none, some T, 0⟩ = true := by
    simp only [passesFilter, oneSecond, decide_eq_true_eq]
    omega
  have hB : passesFilter (T - oneSecond) ⟨some 2, none, some (T - oneSecond), 0⟩
      = false := by
    simp [passesFilter]
  have hC : passesFilter (T - oneSecond) ⟨some 3, none, some (T + 1), 0⟩ = true := by
    simp only [passesFilter, oneSecond, decide_eq_true_eq]
    omega
  refine ⟨hthr, hchar recs, ?_⟩
  rw [hchar, List.filter_cons, List.filter_cons, List.filter_cons, hA, hB, hC]
  rfl

/-- **C8 (counterexample)** — An *unselected* pseudo-incremental sync (reachable: an
unselected parent stream such as `apps` is still synced to drive its selected children)
emits nothing yet still advances and persists the bookmark when a record passes the
filter: with bookmark `0` and one record updated at `1`, nothing is emitted but the
stored bookmark entry changes.  This falsifies "if no record was emitted, the stream's
bookmark entry in the state is left unchanged". -/
theorem C8_pseudo_bookmark_counterexample :
    (pseudoSync false 0 (some 0) [⟨some 1, none, some 1, 0⟩]).emitted = [] ∧
    (pseudoSync false 0 (some 0) [⟨some 1, none, some 1, 0⟩]).state = some 1 ∧
    (pseudoSync false 0 (some 0) [⟨some 1, none, some 1, 0⟩]).persisted = true := by
  refine ⟨?_, ?_, ?_⟩ <;> decide

/-- **C8 (amended)** — For every pseudo-incremental sync: the maximum `updated`
timestamp among the records that *passed the tap-side filter* (equivalently, for a
selected stream, the emitted records — the final conjunct) is written as the new
bookmark at completion, but only when it is strictly newer than the existing bookmark,
and exactly in that case `write_state` is called in the same step; if no record passed
the filter the bookmark entry is left unchanged and nothing is persisted. -/
theorem C8_pseudo_bookmark_write (sel : Bool) (sd : Int) (st : Option Int)
    (recs : List PyRecord) :
    (pseudoSync sel sd st recs).emitted =
      (if sel then recs.filter (passesFilter (st.getD sd - oneSecond)) else []) ∧
    (pseudoSync sel sd st recs).state =
      (match listMaxD ((recs.filterMap PyRecord.updated).filter
          (fun t => decide (st.getD sd - oneSecond < t))) with
       | none => st
       | some M =>
         match st with
         | some cur => if M ≤ cur then some cur else some M
         | none => some M) ∧
    (pseudoSync sel sd st recs).persisted =
      (match listMaxD ((recs.filterMap PyRecord.updated).filter
          (fun t => decide (st.getD sd - oneSecond < t))) with
       | none => false
       | some M =>
         match st with
         | some cur => decide (cur < M)
         | none => true) ∧
    ((pseudoSync true sd st recs).emitted = [] ↔
      listMaxD ((recs.filterMap PyRecord.updated).filter
        (fun t => decide (st.getD sd - oneSecond < t))) = none) := by
  have hthr : pseudoGetBookmark sd st = some (st.getD sd - oneSecond) := rfl
  have hmax := pseudoLoop_max_none sel (st.getD sd - oneSecond) recs
  refine ⟨?_, ?_, ?_, ?_⟩
  · rw [pseudoSync_emitted, hthr, pseudoLoop_emitted]
  · rw [pseudoSync_state, hthr, hmax]
    cases hm : listMaxD ((recs.filterMap PyRecord.updated).filter
        (fun t => decide (st.getD sd - oneSecond < t))) with
    | none => rfl
    | some M =>
      cases st with
      | none => rfl
      | some cur =>
        by_cases h : M ≤ cur <;> simp [pseudoWriteBookmark, h]
  · rw [pseudoSync_persisted, hthr,
      pseudoLoop_max_none sel (st.getD sd - oneSecond) recs]
    cases hm : listMaxD ((recs.filterMap PyRecord.updated).filter
        (fun t => decide (st.getD sd - oneSecond < t))) with
    | none => rfl
    | some M =>
      cases st with
      | none => rfl
      | some cur =>
        by_cases h : M ≤ cur
        · simp [pseudoWriteBookmark, h, not_lt.mpr h]
        · simp [pseudoWriteBookmark, h, lt_of_not_le h]
  · rw [pseudoSync_emitted, hthr, pseudoLoop_emitted, if_pos rfl]
    constructor
    · intro h
      rcases hm : listMaxD ((recs.filterMap PyRecord.updated).filter
          (fun t => decide (st.getD sd - oneSecond < t))) with _ | M
      · rfl
      · exfalso
        have hts : ((recs.filterMap PyRecord.updated).filter
            (fun t => decide (st.getD sd - oneSecond < t))) ≠ [] := by
          intro hnil
          rw [hnil] at hm
          exact Option.noConfusion hm
        rcases List.exists_mem_of_ne_nil _ hts with ⟨t, ht⟩
        have ht' := List.mem_filter.mp ht
        rcases List.mem_filterMap.mp ht'.1 with ⟨r, hr, hru⟩
        have : passesFilter (st.getD sd - oneSecond) r = true := by
          simp [passesFilter, hru]
          exact of_decide_eq_true ht'.2
        have : r ∈ recs.filter (passesFilter (st.getD sd - oneSecond)) :=
          List.mem_filter.mpr ⟨hr, this⟩
        rw [h] at this
        exact absurd this (List.not_mem_nil r)
    · intro h
      rw [List.filter_eq_nil_iff]
      intro r hr
      intro hpass
      cases hru : r.updated with
      | none => rw [passesFilter, hru] at hpass; exact Bool.noConfusion hpass
      | some t =>
        have hlt : st.getD sd - oneSecond < t := by
          rw [passesFilter, hru] at hpass
          exact of_decide_eq_true hpass
        have htmem : t ∈ (recs.filterMap PyRecord.updated).filter
            (fun t => decide (st.getD sd - oneSecond < t)) := by
          refine List.mem_filter.mpr ⟨List.mem_filterMap.mpr ⟨r, hr, hru⟩, by
            simpa using hlt⟩
        have : ((recs.filterMap PyRecord.updated).filter
            (fun t => decide (st.getD sd - oneSecond < t))) = [] := by
          cases hl : (recs.filterMap PyRecord.updated).filter
              (fun t => decide (st.getD sd - oneSecond < t)) with
          | nil => rfl
          | cons a as => rw [hl] at h; exact Option.noConfusion h
        rw [this] at htmem
        exact absurd htmem (List.not_mem_nil t)

/-! ## Incremental sync (C4) -/

theorem le_foldl_max_cursor (F : List (TRecord V)) :
    ∀ a : V, a ≤ F.foldl (fun a r => max a r.cursor) a := by
  induction F with
  | nil => intro a; exact le_refl a
  | cons r rs ih =>
    intro a
    exact le_trans (le_max_left a r.cursor) (ih (max a r.cursor))

/-- Characterisation of the record loop of `IncrementalStream.sync`. -/
theorem incFold (sel : Bool) (B : V) :
    ∀ (recs : List (TRecord V)) (E : List (TRecord V)) (m : V) (c : Nat),
      recs.foldl (fun acc r =>
        if B ≤ r.cursor then
          (acc.1 ++ (if sel then [r] else []), max acc.2.1 r.cursor,
           acc.2.2 + (if sel then 1 else 0))
        else acc) (E, m, c) =
      (E ++ (if sel then recs.filter (fun r => decide (B ≤ r.cursor)) else []),
       (recs.filter (fun r => decide (B ≤ r.cursor))).foldl (fun a r => max a r.cursor) m,
       c + (if sel then (recs.filter (fun r => decide (B ≤ r.cursor))).length else 0)) := by
  intro recs
  induction recs with
  | nil =>
    intro E m c
    cases sel <;> simp
  | cons r rs ih =>
    intro E m c
    by_cases hr : B ≤ r.cursor
    · have hd : decide (B ≤ r.cursor) = true := by simpa using hr
      simp only [List.foldl_cons, if_pos hr, List.filter_cons, hd, if_true, ih]
      cases sel <;>
        simp [Prod.mk.injEq, List.append_assoc, List.length_cons] <;> omega
    · have hd : decide (B ≤ r.cursor) = false := by simpa using hr
      simp only [List.foldl_cons, if_neg hr, List.filter_cons, hd, Bool.false_eq_true,
        if_false, ih]

/-- The records emitted by `IncrementalStream.sync` are exactly the selected filter of
the paginated records against the bookmark read at the start. -/
theorem incSync_emitted (sd : V) (sel : Bool) (stream rk : String)
    (st : SingerState V) (recs : List (TRecord V)) :
    (incSync sd sel stream rk st recs).emitted =
      if sel then
        recs.filter (fun r => decide (singerGetBookmark st stream rk sd ≤ r.cursor))
      else [] := by
  simp only [incSync]
  rw [incFold]
  rfl

/-- The bookmark entry written at the end of `IncrementalStream.sync`. -/
theorem incSync_bookmark (sd : V) (sel : Bool) (stream rk : String)
    (st : SingerState V) (recs : List (TRecord V)) :
    getRaw (incSync sd sel stream rk st recs).state stream rk =
      some ((recs.filter
          (fun r => decide (singerGetBookmark st stream rk sd ≤ r.cursor))).foldl
        (fun a r => max a r.cursor) (singerGetBookmark st stream rk sd)) := by
  simp only [incSync]
  have hB : incGetBookmark sd [rk] st stream none = singerGetBookmark st stream rk sd :=
    rfl
  rw [hB, incFold]
  dsimp only
  rw [incWrite_none_eq, getRaw_incWrite_self, max_eq_right (le_foldl_max_cursor _ _)]

/-- **C4 (counterexample)** — An *unselected* INCREMENTAL sync (reachable: an
unselected parent such as `app_tables` still syncs to drive its selected children)
emits nothing, yet the completion bookmark write stores the maximum cursor of the
*processed* records: from empty state (`B = start_date = 0`) with one record of cursor
`5`, nothing is emitted but the stored bookmark becomes `5`, not
`max(B, max over emitted) = 0`. -/
theorem C4_incremental_counterexample :
    (incSync (V := Int) 0 false "s" "updated" ⟨[]⟩ [⟨5, 0⟩]).emitted = [] ∧
    getRaw (incSync (V := Int) 0 false "s" "updated" ⟨[]⟩ [⟨5, 0⟩]).state "s" "updated"
      = some 5 ∧
    getRaw (incSync (V := Int) 0 false "s" "updated" ⟨[]⟩ [⟨5, 0⟩]).state "s" "updated"
      ≠ some 0 := by
  refine ⟨?_, ?_, ?_⟩ <;> decide

/-- **C4 (amended)** — For every INCREMENTAL sync starting from bookmark `B` (the
stored value, or the start date when absent): only records with cursor `≥ B` are ever
emitted, and they are emitted exactly when the stream is selected; at completion the
stored bookmark equals `max(B, maximum cursor among the records with cursor ≥ B that
the sync processed)` — which, *when the stream is selected*, are exactly the emitted
records; the new bookmark is `≥ B`, and running the sync again from the resulting
state emits only records with cursor `≥` that new bookmark. -/
theorem C4_incremental_sync (sd : V) (sel : Bool) (stream rk : String)
    (st : SingerState V) (recs : List (TRecord V)) :
    (incSync sd sel stream rk st recs).emitted =
      (if sel then
        recs.filter (fun r => decide (singerGetBookmark st stream rk sd ≤ r.cursor))
      else []) ∧
    getRaw (incSync sd sel stream rk st recs).state stream rk =
      some ((recs.filter
          (fun r => decide (singerGetBookmark st stream rk sd ≤ r.cursor))).foldl
        (fun a r => max a r.cursor) (singerGetBookmark st stream rk sd)) ∧
    singerGetBookmark st stream rk sd ≤
      ((recs.filter
          (fun r => decide (singerGetBookmark st stream rk sd ≤ r.cursor))).foldl
        (fun a r => max a r.cursor) (singerGetBookmark st stream rk sd)) ∧
    (∀ (sel2 : Bool) (recs2 : List (TRecord V)),
      (incSync sd sel2 stream rk (incSync sd sel stream rk st recs).state recs2).emitted =
        if sel2 then
          recs2.filter (fun r => decide
            (((recs.filter
                (fun r => decide (singerGetBookmark st stream rk sd ≤ r.cursor))).foldl
              (fun a r => max a r.cursor) (singerGetBookmark st stream rk sd)) ≤ r.cursor))
        else []) := by
  refine ⟨incSync_emitted sd sel stream rk st recs,
    incSync_bookmark sd sel stream rk st recs,
    le_foldl_max_cursor _ _, ?_⟩
  intro sel2 recs2
  rw [incSync_emitted]
  have hB2 : singerGetBookmark (incSync sd sel stream rk st recs).state stream rk sd =
      ((recs.filter
          (fun r => decide (singerGetBookmark st stream rk sd ≤ r.cursor))).foldl
        (fun a r => max a r.cursor) (singerGetBookmark st stream rk sd)) := by
    rw [singerGetBookmark, incSync_bookmark]
    rfl
  rw [hB2]

/-! ## Pagination engine lemmas (C3, C5, C6) -/

/-- Unfolding of one pass of the pagination loop. -/
theorem getRecordsAux_succ (api : Api) (ps fuel iter skip : Nat) (seen : List Int)
    (dup : Nat) (lastSig : Option PageSig) :
    getRecordsAux api ps (fuel + 1) iter skip seen dup lastSig =
      (match (api iter skip).records with
       | [] => ([], 1)
       | r :: rs =>
         if (checkDuplicatePage (pageSig r rs) lastSig dup).1 then ([], 1)
         else if (processDedup (r :: rs) seen).1.isEmpty then
           ((processDedup (r :: rs) seen).1, 1)
         else if (shouldContinuePagination (r :: rs).length ps
             (api iter skip).metadata skip).1 then
           ((processDedup (r :: rs) seen).1 ++
             (getRecordsAux api ps fuel (iter + 1)
               (shouldContinuePagination (r :: rs).length ps
                 (api iter skip).metadata skip).2
               (processDedup (r :: rs) seen).2
               (checkDuplicatePage (pageSig r rs) lastSig dup).2
               (some (pageSig r rs))).1,
            (getRecordsAux api ps fuel (iter + 1)
               (shouldContinuePagination (r :: rs).length ps
                 (api iter skip).metadata skip).2
               (processDedup (r :: rs) seen).2
               (checkDuplicatePage (pageSig r rs) lastSig dup).2
               (some (pageSig r rs))).2 + 1)
         else ((processDedup (r :: rs) seen).1, 1)) := by
  rfl

/-- The yielded slice of a dedup pass is a sub-list of the page. -/
theorem pd_fst_subset :
    ∀ (raw : List PyRecord) (seen : List Int), (processDedup raw seen).1 ⊆ raw := by
  intro raw
  induction raw with
  | nil => intro seen x hx; exact absurd hx (List.not_mem_nil x)
  | cons r rs ih =>
    intro seen x hx
    cases hr : extractId r with
    | some i =>
      by_cases hi : i ∈ seen
      · rw [processDedup, hr] at hx
        simp only [if_pos hi] at hx
        exact List.mem_cons_of_mem r (ih seen hx)
      · rw [processDedup, hr] at hx
        simp only [if_neg hi] at hx
        rcases List.mem_cons.mp hx with h | h
        · exact h ▸ List.mem_cons_self r rs
        · exact List.mem_cons_of_mem r (ih (i :: seen) h)
    | none =>
      rw [processDedup, hr] at hx
      rcases List.mem_cons.mp hx with h | h
      · exact h ▸ List.mem_cons_self r rs
      · exact List.mem_cons_of_mem r (ih seen h)

/-- The seen set only grows across a dedup pass. -/
theorem pd_seen_mem :
    ∀ (raw : List PyRecord) (seen : List Int) (i : Int),
      i ∈ seen → i ∈ (processDedup raw seen).2 := by
  intro raw
  induction raw with
  | nil => intro seen i hi; exact hi
  | cons r rs ih =>
    intro seen i hi
    cases hr : extractId r with
    | some j =>
      by_cases hj : j ∈ seen
      · rw [processDedup, hr]
        simp only [if_pos hj]
        exact ih seen i hi
      · rw [processDedup, hr]
        simp only [if_neg hj]
        exact ih (j :: seen) i (List.mem_cons_of_mem j hi)
    | none =>
      rw [processDedup, hr]
      exact ih seen i hi

/-- Every id occurring in the page is in the seen set after the dedup pass. -/
theorem pd_raw_ids_snd :
    ∀ (raw : List PyRecord) (seen : List Int) (r : PyRecord), r ∈ raw →
      ∀ i : Int, extractId r = some i → i ∈ (processDedup raw seen).2 := by
  intro raw
  induction raw with
  | nil => intro seen r hr; exact absurd hr (List.not_mem_nil r)
  | cons r0 rs ih =>
    intro seen r hr i hi
    cases hr0 : extractId r0 with
    | some j =>
      by_cases hj : j ∈ seen
      · rw [processDedup, hr0]
        simp only [if_pos hj]
        rcases List.mem_cons.mp hr with h | h
        · subst h
          rw [hr0] at hi
          exact pd_seen_mem rs seen i (Option.some.inj hi ▸ hj)
        · exact ih seen r h i hi
      · rw [processDedup, hr0]
        simp only [if_neg hj]
        rcases List.mem_cons.mp hr with h | h
        · subst h
          rw [hr0] at hi
          exact pd_seen_mem rs (j :: seen) i
            (Option.some.inj hi ▸ List.mem_cons_self j seen)
        · exact ih (j :: seen) r h i hi
    | none =>
      rw [processDedup, hr0]
      rcases List.mem_cons.mp hr with h | h
      · subst h
        rw [hr0] at hi
        exact Option.noConfusion hi
      · exact ih seen r h i hi

/-- Ids yielded by a dedup pass were not previously seen. -/
theorem pd_fresh :
    ∀ (raw : List PyRecord) (seen : List Int) (i : Int),
      i ∈ (processDedup raw seen).1.filterMap extractId → i ∉ seen := by
  intro raw
  induction raw with
  | nil => intro seen i hi; exact absurd hi (List.not_mem_nil i)
  | cons r rs ih =>
    intro seen i hi
    cases hr : extractId r with
    | some j =>
      by_cases hj : j ∈ seen
      · rw [processDedup, hr] at hi
        simp only [if_pos hj] at hi
        exact ih seen i hi
      · rw [processDedup, hr] at hi
        simp only [if_neg hj, List.filterMap_cons, hr] at hi
        rcases List.mem_cons.mp hi with h | h
        · subst h; exact hj
        · intro hmem
          exact ih (j :: seen) i h (List.mem_cons_of_mem j hmem)
    | none =>
      rw [processDedup, hr] at hi
      simp only [List.filterMap_cons, hr] at hi
      exact ih seen i hi

/-- The ids yielded by a dedup pass are pairwise distinct. -/
theorem pd_nodup :
    ∀ (raw : List PyRecord) (seen : List Int),
      ((processDedup raw seen).1.filterMap extractId).Nodup := by
  intro raw
  induction raw with
  | nil => intro seen; exact List.nodup_nil
  | cons r rs ih =>
    intro seen
    cases hr : extractId r with
    | some j =>
      by_cases hj : j ∈ seen
      · rw [processDedup, hr]
        simp only [if_pos hj]
        exact ih seen
      · rw [processDedup, hr]
        simp only [if_neg hj, List.filterMap_cons, hr]
        refine List.Nodup.cons ?_ (ih (j :: seen))
        intro hmem
        exact pd_fresh rs (j :: seen) j hmem (List.mem_cons_self j seen)
    | none =>
      rw [processDedup, hr]
      simp only [List.filterMap_cons, hr]
      exact ih seen

/-- Ids yielded by a dedup pass end up in the post-pass seen set. -/
theorem pd_ids_mem_snd (raw : List PyRecord) (seen : List Int) (i : Int)
    (hi : i ∈ (processDedup raw seen).1.filterMap extractId) :
    i ∈ (processDedup raw seen).2 := by
  rcases List.mem_filterMap.mp hi with ⟨r, hr, hri⟩
  exact pd_raw_ids_snd raw seen r (pd_fst_subset raw seen hr) i hri

/-- The loop issues at most `fuel` further requests. -/
theorem getRecordsAux_requests_le (api : Api) (ps : Nat) :
    ∀ (fuel iter skip : Nat) (seen : List Int) (dup : Nat) (lastSig : Option PageSig),
      (getRecordsAux api ps fuel iter skip seen dup lastSig).2 ≤ fuel := by
  intro fuel
  induction fuel with
  | zero => intro iter skip seen dup lastSig; exact le_refl 0
  | succ fuel ih =>
    intro iter skip seen dup lastSig
    rw [getRecordsAux_succ]
    cases hrec : (api iter skip).records with
    | nil => simp
    | cons r rs =>
      by_cases h1 : (checkDuplicatePage (pageSig r rs) lastSig dup).1
      · simp [h1]
      · by_cases h2 : (processDedup (r :: rs) seen).1.isEmpty
        · simp [h1, h2]
        · by_cases h3 : (shouldContinuePagination (r :: rs).length ps
              (api iter skip).metadata skip).1
          · simp only [h1, h2, h3, Bool.false_eq_true, if_false, if_true]
            have := ih (iter + 1)
              (shouldContinuePagination (r :: rs).length ps
                (api iter skip).metadata skip).2
              (processDedup (r :: rs) seen).2
              (checkDuplicatePage (pageSig r rs) lastSig dup).2
              (some (pageSig r rs))
            omega
          · simp only [List.length_cons] at h3
            simp [h1, h2, h3]

/-- Runs that terminate before exhausting their fuel are insensitive to extra fuel:
a run whose request count is below its fuel gives the same result with any larger
fuel.  (Lets concrete scenarios be evaluated at small fuel and transferred to the
10,000-iteration ceiling.) -/
theorem getRecordsAux_fuel_mono (api : Api) (ps : Nat) :
    ∀ (f F iter skip : Nat) (seen : List Int) (dup : Nat) (lastSig : Option PageSig),
      (getRecordsAux api ps f iter skip seen dup lastSig).2 < f → f ≤ F →
      getRecordsAux api ps F iter skip seen dup lastSig =
        getRecordsAux api ps f iter skip seen dup lastSig := by
  intro f
  induction f with
  | zero => intro F iter skip seen dup lastSig h _; exact absurd h (by omega)
  | succ f ih =>
    intro F iter skip seen dup lastSig hreq hF
    obtain ⟨G, rfl⟩ : ∃ G, F = G + 1 := ⟨F - 1, by omega⟩
    rw [getRecordsAux_succ, getRecordsAux_succ]
    rw [getRecordsAux_succ] at hreq
    cases hrec : (api iter skip).records with
    | nil => rfl
    | cons r rs =>
      rw [hrec] at hreq
      by_cases h1 : (checkDuplicatePage (pageSig r rs) lastSig dup).1
      · simp [h1]
      · by_cases h2 : (processDedup (r :: rs) seen).1.isEmpty
        · simp [h1, h2]
        · by_cases h3 : (shouldContinuePagination (r :: rs).length ps
              (api iter skip).metadata skip).1
          · simp only [h1, h2, h3, Bool.false_eq_true, if_false, if_true] at hreq ⊢
            have hlt : (getRecordsAux api ps f (iter + 1)
                (shouldContinuePagination (r :: rs).length ps
                  (api iter skip).metadata skip).2
                (processDedup (r :: rs) seen).2
                (checkDuplicatePage (pageSig r rs) lastSig dup).2
                (some (pageSig r rs))).2 < f := by
              omega
            rw [ih G (iter + 1)
              (shouldContinuePagination (r :: rs).length ps
                (api iter skip).metadata skip).2
              (processDedup (r :: rs) seen).2
              (checkDuplicatePage (pageSig r rs) lastSig dup).2
              (some (pageSig r rs)) hlt (by omega)]
          · simp only [List.length_cons] at h3
            simp [h1, h2, h3]

/-- Across a whole pagination run, the yielded record ids are pairwise distinct and
disjoint from the initial seen set. -/
theorem getRecordsAux_ids_nodup (api : Api) (ps : Nat) :
    ∀ (fuel iter skip : Nat) (seen : List Int) (dup : Nat) (lastSig : Option PageSig),
      ((getRecordsAux api ps fuel iter skip seen dup lastSig).1.filterMap
        extractId).Nodup ∧
      ∀ i ∈ (getRecordsAux api ps fuel iter skip seen dup lastSig).1.filterMap
          extractId, i ∉ seen := by
  intro fuel
  induction fuel with
  | zero =>
    intro iter skip seen dup lastSig
    exact ⟨List.nodup_nil, fun i hi => absurd hi (List.not_mem_nil i)⟩
  | succ fuel ih =>
    intro iter skip seen dup lastSig
    rw [getRecordsAux_succ]
    cases hrec : (api iter skip).records with
    | nil =>
      constructor
      · simp
      · simp
    | cons r rs =>
      by_cases h1 : (checkDuplicatePage (pageSig r rs) lastSig dup).1
      · simp [h1]
      · by_cases h2 : (processDedup (r :: rs) seen).1.isEmpty
        · simp only [h1, h2, Bool.false_eq_true, if_false, if_true]
          exact ⟨pd_nodup _ _, fun i hi => pd_fresh _ _ i hi⟩
        · by_cases h3 : (shouldContinuePagination (r :: rs).length ps
              (api iter skip).metadata skip).1
          · simp only [h1, h2, h3, Bool.false_eq_true, if_false, if_true]
            have hrest := ih (iter + 1)
              (shouldContinuePagination (r :: rs).length ps
                (api iter skip).metadata skip).2
              (processDedup (r :: rs) seen).2
              (checkDuplicatePage (pageSig r rs) lastSig dup).2
              (some (pageSig r rs))
            rw [List.filterMap_append]
            refine ⟨List.Nodup.append (pd_nodup _ _) hrest.1 ?_, ?_⟩
            · intro a ha hb
              exact hrest.2 a hb (pd_ids_mem_snd _ _ a ha)
            · intro i hi
              rcases List.mem_append.mp hi with h | h
              · exact pd_fresh _ _ i h
              · intro hmem
                exact hrest.2 i h (pd_seen_mem _ _ i hmem)
          · simp only [h1, h2, h3, Bool.false_eq_true, if_false, if_true]
            exact ⟨pd_nodup _ _, fun i hi => pd_fresh _ _ i hi⟩

/-- Against `apiFresh` (always a fresh single-record full page) the loop burns its
entire fuel: nothing but the iteration ceiling stops it. -/
theorem apiFresh_requests :
    ∀ (fuel iter skip : Nat) (seen : List Int) (dup : Nat) (lastSig : Option PageSig),
      (∀ j ∈ seen, ∃ m : Nat, m < iter ∧ j = (m : Int) + 1) →
      (lastSig = none ∨
        ∃ m : Nat, m < iter ∧ lastSig = some (.ids ((m : Int) + 1) ((m : Int) + 1) 1)) →
      (getRecordsAux apiFresh 1 fuel iter skip seen dup lastSig).2 = fuel := by
  intro fuel
  induction fuel with
  | zero => intro iter skip seen dup lastSig _ _; rfl
  | succ fuel ih =>
    intro iter skip seen dup lastSig hseen hsig
    have hx : extractId (mkRec ((iter : Int) + 1)) = some ((iter : Int) + 1) := by
      simp only [extractId, mkRec]
      rw [if_neg (by omega)]
    have hrec : (apiFresh iter skip).records = [mkRec ((iter : Int) + 1)] := rfl
    have hsigeq : pageSig (mkRec ((iter : Int) + 1)) [] =
        PageSig.ids ((iter : Int) + 1) ((iter : Int) + 1) 1 := by
      unfold pageSig
      rw [show ([] : List PyRecord).getLastD (mkRec ((iter : Int) + 1)) =
        mkRec ((iter : Int) + 1) from rfl]
      rw [hx]
      rfl
    have hchk : checkDuplicatePage
        (PageSig.ids ((iter : Int) + 1) ((iter : Int) + 1) 1) lastSig dup = (false, 0) := by
      rcases hsig with h | ⟨m, hm, h⟩
      · rw [h]
        unfold checkDuplicatePage
        rw [if_neg (by simp)]
      · rw [h]
        unfold checkDuplicatePage
        rw [if_neg ?_]
        intro hcontra
        have h2 := Option.some.inj hcontra
        have h3 : ((iter : Int) + 1) = ((m : Int) + 1) := by
          cases h2
          rfl
        omega
    have hmem : ((iter : Int) + 1) ∉ seen := by
      intro hmem
      rcases hseen _ hmem with ⟨m, hm, hj⟩
      omega
    have hpd : processDedup [mkRec ((iter : Int) + 1)] seen =
        ([mkRec ((iter : Int) + 1)], ((iter : Int) + 1) :: seen) := by
      rw [processDedup, hx]
      simp only [if_neg hmem]
      rfl
    have hsc : shouldContinuePagination ([mkRec ((iter : Int) + 1)]).length 1
        (apiFresh iter skip).metadata skip = (true, skip + 1) := rfl
    rw [getRecordsAux_succ, hrec]
    simp only [hsigeq, hchk, hpd, hsc, List.isEmpty_cons, Bool.false_eq_true, if_false,
      if_true]
    rw [ih (iter + 1) (skip + 1) (((iter : Int) + 1) :: seen) 0
      (some (PageSig.ids ((iter : Int) + 1) ((iter : Int) + 1) 1)) ?_ ?_]
    · intro j hj
      rcases List.mem_cons.mp hj with h | h
      · exact ⟨iter, by omega, h⟩
      · rcases hseen j h with ⟨m, hm, hjm⟩
        exact ⟨m, by omega, hjm⟩
    · exact Or.inr ⟨iter, by omega, rfl⟩

/-- **C6** — Every pagination run issues at most 10,000 requests (the iteration
ceiling); an API that never triggers any other termination condition (endless fresh
full pages) reaches the ceiling exactly, the loop still returns its yielded records
normally (rather than looping forever or raising), and the error-log condition
`iteration >= max_iterations` is then true. -/
theorem C6_iteration_ceiling :
    (∀ (api : Api) (ps : Nat), (getRecords api ps).2 ≤ 10000) ∧
    (getRecords apiFresh 1).2 = 10000 ∧
    hitIterationCeiling apiFresh 1 = true := by
  have hb : ∀ (api : Api) (ps : Nat), (getRecords api ps).2 ≤ 10000 := by
    intro api ps
    exact getRecordsAux_requests_le api ps 10000 0 0 [] 0 none
  have hf : (getRecords apiFresh 1).2 = 10000 := by
    have := apiFresh_requests 10000 0 0 [] 0 none
      (fun j hj => absurd hj (List.not_mem_nil j)) (Or.inl rfl)
    exact this
  refine ⟨hb, hf, ?_⟩
  rw [hitIterationCeiling, hf]
  decide

/-- **C5** — Pagination continuation: a short page (fewer records than the page size)
stops pagination with the offset unchanged; a full page advances the offset by the
page's record count and, with envelope metadata, continues exactly while the advanced
offset is below the reported total; with no metadata a full page always continues.  In
the concrete scenario — page size 50, pages of 50/50/30 records with ascending distinct
ids 0..129, no metadata — exactly 3 requests are issued and the 130 distinct records
are yielded in order with no duplicates. -/
theorem C5_pagination_rules :
    (∀ (num ps : Nat) (meta : Option Nat) (skip : Nat), num < ps →
      shouldContinuePagination num ps meta skip = (false, skip)) ∧
    (∀ (num ps total skip : Nat), ps ≤ num →
      shouldContinuePagination num ps (some total) skip =
        (decide (skip + num < total), skip + num)) ∧
    (∀ (num ps skip : Nat), ps ≤ num →
      shouldContinuePagination num ps none skip = (true, skip + num)) ∧
    getRecords api3 50 = ((List.range 130).map (fun n => mkRec n), 3) ∧
    ((List.range 130).map (fun n => mkRec n)).Nodup := by
  have h5 : getRecordsAux api3 50 5 0 0 [] 0 none =
      ((List.range 130).map (fun n => mkRec n), 3) := by decide
  have hsc : getRecords api3 50 = ((List.range 130).map (fun n => mkRec n), 3) := by
    rw [getRecords, getRecordsAux_fuel_mono api3 50 5 10000 0 0 [] 0 none
      (by rw [h5]; decide) (by omega), h5]
  refine ⟨?_, ?_, ?_, hsc, by decide⟩
  · intro num ps meta skip h
    unfold shouldContinuePagination
    rw [if_pos h]
  · intro num ps total skip h
    unfold shouldContinuePagination
    rw [if_neg (not_lt.mpr h)]
    by_cases ht : total ≤ skip + num
    · simp only [if_pos ht, Prod.mk.injEq]
      refine ⟨by simpa using not_lt.mpr ht, ?_⟩
      trivial
    · simp only [if_neg ht, Prod.mk.injEq]
      refine ⟨by simpa using Nat.lt_of_not_le ht, ?_⟩
      trivial
  · intro num ps skip h
    unfold shouldContinuePagination
    rw [if_neg (not_lt.mpr h)]

/-- Witness for C5's three continuation rules at concrete inputs. -/
theorem C5_pagination_rules_witness :
    shouldContinuePagination 30 50 none 100 = (false, 100) ∧
    shouldContinuePagination 50 50 (some 130) 50 = (true, 100) ∧
    shouldContinuePagination 50 50 (some 130) 100 = (false, 150) ∧
    shouldContinuePagination 50 50 none 0 = (true, 50) := by
  refine ⟨C5_pagination_rules.1 30 50 none 100 (by decide), ?_, ?_,
    C5_pagination_rules.2.2.1 50 50 0 (by decide)⟩
  · rw [C5_pagination_rules.2.1 50 50 130 50 (by decide)]
    decide
  · rw [C5_pagination_rules.2.1 50 50 130 100 (by decide)]
    decide

/-- A dedup pass over a page of identified, pairwise-distinct, unseen records yields
the whole page. -/
theorem pd_all_new :
    ∀ (raw : List PyRecord) (seen : List Int),
      (∀ r ∈ raw, (extractId r).isSome) →
      (raw.filterMap extractId).Nodup →
      (∀ i ∈ raw.filterMap extractId, i ∉ seen) →
      (processDedup raw seen).1 = raw := by
  intro raw
  induction raw with
  | nil => intro seen _ _ _; rfl
  | cons r rs ih =>
    intro seen hids hnodup hfresh
    rcases Option.isSome_iff_exists.mp (hids r (List.mem_cons_self r rs)) with ⟨i, hr⟩
    have hmemi : i ∈ (r :: rs).filterMap extractId := by
      simp only [List.filterMap_cons, hr]
      exact List.mem_cons_self i _
    have hnotseen : i ∉ seen := hfresh i hmemi
    rw [processDedup, hr]
    simp only [if_neg hnotseen]
    simp only [List.filterMap_cons, hr] at hnodup hfresh
    have htl := ih (i :: seen)
      (fun x hx => hids x (List.mem_cons_of_mem r hx))
      (List.Nodup.of_cons hnodup)
      (fun j hj hmem => by
        rcases List.mem_cons.mp hmem with h | h
        · subst h
          exact (List.nodup_cons.mp hnodup).1 hj
        · exact hfresh j (List.mem_cons_of_mem i hj) h)
    rw [htl]

/-- A dedup pass over a page whose every record id was already seen yields nothing. -/
theorem pd_all_seen :
    ∀ (raw : List PyRecord) (seen : List Int),
      (∀ r ∈ raw, ∃ i, extractId r = some i ∧ i ∈ seen) →
      (processDedup raw seen).1 = [] := by
  intro raw
  induction raw with
  | nil => intro seen _; rfl
  | cons r rs ih =>
    intro seen h
    rcases h r (List.mem_cons_self r rs) with ⟨i, hr, hi⟩
    rw [processDedup, hr]
    simp only [if_pos hi]
    exact ih seen (fun x hx => h x (List.mem_cons_of_mem r hx))

/-- An identical full page (with fully identified, distinct record ids and no envelope
metadata) on the first two requests makes the loop stop at the second request: the
dedup pass of the second page yields zero new records. -/
theorem dupPageStopsAtSecond (api : Api) (ps : Nat) (P : Response)
    (h0 : ∀ s, api 0 s = P) (h1 : ∀ s, api 1 s = P)
    (hmeta : P.metadata = none) (hlen : P.records.length = ps) (hpos : 0 < ps)
    (hids : ∀ r ∈ P.records, (extractId r).isSome)
    (hnodup : (P.records.filterMap extractId).Nodup) :
    getRecords api ps = (P.records, 2) := by
  obtain ⟨r, rs, hP⟩ : ∃ r rs, P.records = r :: rs := by
    cases hrec : P.records with
    | nil =>
      rw [hrec] at hlen
      simp at hlen
      omega
    | cons a l => exact ⟨a, l, rfl⟩
  show getRecordsAux api ps (9999 + 1) 0 0 [] 0 none = (P.records, 2)
  rw [getRecordsAux_succ, h0 0, hP]
  have hchk1 : checkDuplicatePage (pageSig r rs) none 0 = (false, 0) := rfl
  have hpd1 : (processDedup (r :: rs) []).1 = r :: rs :=
    pd_all_new (r :: rs) []
      (by rw [hP] at hids; exact hids)
      (by rw [hP] at hnodup; exact hnodup)
      (fun i _ hmem => absurd hmem (List.not_mem_nil i))
  have hsc1 : shouldContinuePagination (r :: rs).length ps P.metadata 0 =
      (true, 0 + (r :: rs).length) := by
    rw [hmeta]
    unfold shouldContinuePagination
    rw [if_neg (by rw [← hP, hlen]; omega)]
  simp only [hchk1, hpd1, hsc1, List.isEmpty_cons, Bool.false_eq_true, if_false, if_true]
  rw [show (9999 : Nat) = 9998 + 1 from rfl, show (0 : Nat) + 1 = 1 from rfl,
    getRecordsAux_succ, h1 _, hP]
  have hchk2 : checkDuplicatePage (pageSig r rs) (some (pageSig r rs)) 0 = (false, 1) := by
    unfold checkDuplicatePage
    rw [if_pos rfl]
    rfl
  have hpd2 : (processDedup (r :: rs) (processDedup (r :: rs) []).2).1 = [] := by
    refine pd_all_seen (r :: rs) _ ?_
    intro x hx
    rcases Option.isSome_iff_exists.mp (hids x (by rw [hP]; exact hx)) with ⟨i, hxi⟩
    exact ⟨i, hxi, pd_raw_ids_snd (r :: rs) [] x hx i hxi⟩
  simp only [hchk2, Bool.false_eq_true, if_false, hpd2, List.isEmpty_nil, if_true]
  rw [List.append_nil]

/-- **C3 (counterexample)** — For *identity-less* pages the record-level dedup cannot
stop the loop and the duplicate-page detector only fires on the *third* consecutive
identical signature, so a page signature returned twice consecutively does not bound
termination by 2 extra requests: `apiNoIds` returns the same id-less 2-record page on
requests 1 and 2 (same signature), yet the engine issues 4 requests in total — more
than 1 + 2. -/
theorem C3_duplicate_page_counterexample :
    createPageSignature ((apiNoIds 0 0).records) =
      createPageSignature ((apiNoIds 1 2).records) ∧
    (apiNoIds 0 0).records = (apiNoIds 1 2).records ∧
    (getRecords apiNoIds 2).2 = 4 := by
  have h5 : (getRecordsAux apiNoIds 2 5 0 0 [] 0 none).2 = 4 := by decide
  refine ⟨by decide, by decide, ?_⟩
  rw [getRecords, getRecordsAux_fuel_mono apiNoIds 2 5 10000 0 0 [] 0 none
    (by rw [h5] ; decide) (by omega), h5]

/-- **C3 (amended)** — Across every pagination run no two yielded records share the
same extracted record identity (the stream id component is fixed within a sync).  When
a full page of identified, pairwise-distinct records is returned identically on two
consecutive requests, the engine stops at the second request having yielded exactly the
first page's records — 1 extra request, logged as pagination-complete — covering the
identical-50-record-page scenario with 2 total requests.  (For identity-less pages the
engine stops only at a third consecutive identical signature, per the counterexample.) -/
theorem C3_duplicate_page_dedup :
    (∀ (api : Api) (ps : Nat),
      ((getRecords api ps).1.filterMap extractId).Nodup) ∧
    (∀ (api : Api) (ps : Nat) (P : Response),
      (∀ s, api 0 s = P) → (∀ s, api 1 s = P) →
      P.metadata = none → P.records.length = ps → 0 < ps →
      (∀ r ∈ P.records, (extractId r).isSome) →
      (P.records.filterMap extractId).Nodup →
      getRecords api ps = (P.records, 2)) := by
  constructor
  · intro api ps
    exact (getRecordsAux_ids_nodup api ps 10000 0 0 [] 0 none).1
  · intro api ps P h0 h1 hmeta hlen hpos hids hnodup
    exact dupPageStopsAtSecond api ps P h0 h1 hmeta hlen hpos hids hnodup

/-- Witness for C3 at the spec's concrete scenario: the identical 50-record page (ids
1..50) on two consecutive requests yields exactly those 50 records with 2 requests. -/
theorem C3_duplicate_page_dedup_witness :
    getRecords api2 50 = (page50, 2) ∧
    page50.length = 50 ∧
    (page50.filterMap extractId).Nodup := by
  refine ⟨C3_duplicate_page_dedup.2 api2 50 ⟨page50, none⟩
    (fun s => rfl) (fun s => rfl) rfl (by decide) (by decide) (by decide) (by decide),
    by decide, by decide⟩

end TapQuickbase
